import Mathlib

/-!
Verification of the zookeeper download engine against its specification.

The development shallowly embeds the two core modules:

* `src/zookeeper/download_utils.py` — the segmented single-file downloader
  (`infer_filename`, `DownloadJob` and its `headers` property, the job
  planner inside `asegmented_download` (`prepare_jobs`), and the positional
  writer `write_buffer`);
* `src/zookeeper/downloader.py` — the batch worker-pool downloader
  (`DownloadJob` there, called `BatchJob` below following the spec's name,
  the worker body `_download_worker` with its `handle_failure` retry logic,
  `_verify`, and `enqueue`).

Python integers are embedded as `Int`/`Nat` (no overflow in Python),
byte strings as `List Nat`, file systems as association lists from path
to contents, and the HTTP layer as explicit response values fed to the
embedded control flow.  Fallible paths are embedded as sum-like result
types.  All definitions are executable.
-/

/-- Python `range(n)` for an `int` argument: the integers `0, …, n-1`,
empty when `n ≤ 0`.  Used by `prepare_jobs`' `for i in range(connections)`. -/
def intRange (n : Int) : List Int :=
  (List.range n.toNat).map Int.ofNat

/-- Python floor division `//` on `int`s (rounds toward negative infinity). -/
def pyDiv (a b : Int) : Int :=
  Int.fdiv a b

/-- The segmented-mode `DownloadJob` dataclass of `download_utils.py`
(frozen dataclass with fields `url`, `dest`, `start`, `end`,
`user_headers`, `params`).  The `end` field is spelled `endIdx` because
`end` is a Lean keyword.  Header/param dicts are embedded as association
lists. -/
structure DownloadJob where
  url : String
  dest : String
  start : Int
  endIdx : Int
  user_headers : List (String × String)
  params : List (String × String)
  deriving DecidableEq, Repr

/-- The `DownloadJob.headers` property:
`if self.start or self.end: return {"Range": f"bytes={self.start}-{self.end}"} | self.user_headers`.
Python truthiness of an `int` is "nonzero", so the `Range` header is added
exactly when `start ≠ 0 ∨ end ≠ 0`.  The dict merge is embedded by consing
the `Range` entry in front of the user headers (the claims under study
never exercise a user-supplied `Range` key, whose value would win in
Python's `|` merge). -/
def DownloadJob.headers (j : DownloadJob) : List (String × String) :=
  if j.start ≠ 0 ∨ j.endIdx ≠ 0 then
    ("Range", "bytes=" ++ toString j.start ++ "-" ++ toString j.endIdx) :: j.user_headers
  else
    j.user_headers

/-- Result of the job-planning phase of `asegmented_download`.  Computing
`content_length // connections` with `connections == 0` raises
`ZeroDivisionError` in Python before any job is produced; otherwise the
planner yields the list of jobs put on the job queue. -/
inductive PlanResult where
  | zeroDivisionError
  | plan (jobs : List DownloadJob)
  deriving DecidableEq, Repr

/-- The `prepare_jobs` coroutine of `asegmented_download`
(`download_utils.py` lines 110–119):

    segment_size = content_length // connections
    for i in range(connections):
        start = i * segment_size
        end = min((i + 1) * segment_size - 1, content_length - 1)
        job = DownloadJob(url, dest, start, end, params=params or {}, user_headers=headers or {})
        await job_q.put(job)

The function is total over all `Int` inputs; the division by zero of
`connections == 0` is reified as `PlanResult.zeroDivisionError`. -/
def prepare_jobs (url dest : String) (user_headers params : List (String × String))
    (content_length connections : Int) : PlanResult :=
  if connections = 0 then
    .zeroDivisionError
  else
    let segment_size := pyDiv content_length connections
    .plan ((intRange connections).map fun i =>
      { url := url, dest := dest,
        start := i * segment_size,
        endIdx := min ((i + 1) * segment_size - 1) (content_length - 1),
        user_headers := user_headers, params := params })

/-- Number of jobs a `PlanResult` puts on the job queue (`none` when the
planner died with `ZeroDivisionError`). -/
def plan_job_count : PlanResult → Option Nat
  | .zeroDivisionError => none
  | .plan l => some (l.length)

/-- One positional write: seek to `offset` and write `data` over `file`.
Bytes of `file` outside `[offset, offset + data.length)` are kept; seeking
past the end of the file pads the gap with zero bytes, as POSIX files do. -/
def writeAt (file : List Nat) (offset : Nat) (data : List Nat) : List Nat :=
  let padded := file ++ List.replicate (offset + data.length - file.length) 0
  padded.take offset ++ data ++ padded.drop (offset + data.length)

/-- The `write_buffer` coroutine of `asegmented_download`
(`download_utils.py` lines 141–152): it opens the destination in `r+b`
mode, initializes `offset = job.start`, and for each received chunk seeks
to `offset`, writes the chunk, and advances `offset` by the chunk length.
The chunk stream of one segment is given as `chunks`; the result is the
destination file contents after the writer drains them. -/
def write_buffer (j : DownloadJob) (chunks : List (List Nat)) (file : List Nat) : List Nat :=
  (chunks.foldl
    (fun st chunk => (writeAt st.1 st.2 chunk, st.2 + chunk.length))
    (file, j.start.toNat)).1

/-- The body an HTTP server honoring `Range: bytes=start-end` (inclusive)
returns for a resource whose full content is `content`; this is what
`download_segment` streams for a job. -/
def range_body (content : List Nat) (j : DownloadJob) : List Nat :=
  (content.drop j.start.toNat).take (j.endIdx - j.start + 1).toNat

/-- Destination file produced by running the writers of `jobs` in reverse
order (the last planned segment completes first) starting from the empty
file created by `dest.touch()`.  Each fetcher streams its range body in
1 MiB chunks; all bodies in the scenarios below are under 1 MiB, so each
segment is a single chunk. -/
def run_jobs_rev (content : List Nat) (jobs : List DownloadJob) : List Nat :=
  jobs.reverse.foldl (fun file j => write_buffer j [range_body content j] file) []

/-- `MAX_THREADS` constant of `downloader.py`. -/
def MAX_THREADS : Int := 40

/-- The effective `max_connections` computed by `APKDownloader.__init__`
(`downloader.py` lines 67–73): the requested value, clamped to
`MAX_THREADS` with a printed warning — no exception is raised.  This is
the batch worker-pool size. -/
def effective_max_connections (max_connections : Int) : Int :=
  if max_connections > MAX_THREADS then MAX_THREADS else max_connections

/-- The batch-mode job dataclass `DownloadJob` of `downloader.py`
(fields `hash`, `output_file`, `size`, `fail_count`), named `BatchJob`
after the spec to avoid the clash with the segmented-mode `DownloadJob`. -/
structure BatchJob where
  hash : String
  output_file : String
  size : Nat
  fail_count : Nat
  deriving DecidableEq, Repr

/-- An HTTP response as seen by `_download_worker`: the `response.is_error`
flag checked by the worker and the streamed body bytes. -/
structure HttpResponse where
  is_error : Bool
  body : List Nat
  deriving DecidableEq, Repr

/-- What `_download_worker` does with one dequeued job, observably:
re-enqueue it on the shared queue, drop it with the failure callback, or
rename the temp file to the output file and fire the success callback
(carrying the bytes that ended up on disk). -/
inductive JobOutcome where
  | reenqueued (job : BatchJob)
  | failed (job : BatchJob)
  | succeeded (job : BatchJob) (file_bytes : List Nat)
  deriving DecidableEq, Repr

/-- One iteration of the `_download_worker` loop (`downloader.py` lines
91–114) on job `job` receiving response `resp`:

    if response.is_error: handle_failure(job); continue
    ... stream body to temp file ... temp_file.rename(...); self.on_success(job)

where `handle_failure` increments `fail_count` and then either fires the
failure callback (when `fail_count >= max_retries`) or puts the job back
on the queue.  On the success path the temp file is opened in append
mode; error responses never write to it, so within one run its final
contents are exactly the response body. -/
def process_job (max_retries : Nat) (job : BatchJob) (resp : HttpResponse) : JobOutcome :=
  if resp.is_error then
    let j := { job with fail_count := job.fail_count + 1 }
    if max_retries ≤ j.fail_count then .failed j else .reenqueued j
  else
    .succeeded job resp.body

/-- The lifetime of one logical job across worker iterations: `rs` lists
the HTTP responses its successive attempts receive (a re-enqueued job is
dequeued again by some worker and processed with the next response).  The
result is the trace of outcomes; the trace ends at the first terminal
outcome, after which the job is never processed again. -/
def run_job (max_retries : Nat) (job : BatchJob) : List HttpResponse → List JobOutcome
  | [] => []
  | r :: rs =>
    match process_job max_retries job r with
    | .reenqueued j => .reenqueued j :: run_job max_retries j rs
    | o => [o]

/-- Python `str.upper` on one character, for the ASCII range that hex
digests and the identifiers under study live in. -/
def pyCharUpper (c : Char) : Char :=
  if 'a' ≤ c ∧ c ≤ 'z' then Char.ofNat (c.toNat - 32) else c

/-- Python `str.upper` (ASCII fragment, which is all `hexdigest` output
and the identifiers in the claims use). -/
def pyUpper (s : String) : String :=
  String.mk (s.data.map pyCharUpper)

/-- `APKDownloader._verify` (`downloader.py` lines 132–137):

    if not file.exists(): return False
    return hash == sha256(file.read_bytes()).hexdigest().upper()

The file system is an association list from path to byte contents;
`sha256(...).hexdigest()` is abstracted as the function parameter
`sha256hex` (the claims under study concern the comparison and case
logic, not the hash function itself; Python's `hexdigest` returns
lowercase hex). -/
def verify (sha256hex : List Nat → String) (fs : List (String × List Nat))
    (hash file : String) : Bool :=
  match fs.lookup file with
  | none => false
  | some bytes => hash == pyUpper (sha256hex bytes)

/-- The output path `self.download_dir / f"{hash}.apk"` used by `enqueue`. -/
def output_file_path (download_dir hash : String) : String :=
  download_dir ++ "/" ++ hash ++ ".apk"

/-- What a call to `enqueue` does, observably: return early with no
network traffic and nothing queued (`skip`), or issue the HEAD request
and put a fresh job on the job queue. -/
inductive EnqueueAction where
  | skip
  | headAndPut (job : BatchJob)
  deriving DecidableEq, Repr

/-- `APKDownloader.enqueue` (`downloader.py` lines 161–174):

    output_file = self.download_dir / f"{hash}.apk"
    if output_file.exists() and self._verify(hash, output_file):
        rich.print("Already downloaded:", hash); return
    head_response = self.httpxclient.head(...)
    content_length = int(head_response.headers.get("Content-Length", 0))
    self.job_queue.put(DownloadJob(hash=hash, output_file=output_file, size=content_length))

`content_length` is the value the HEAD response would carry, supplied as
a parameter; it is only consulted on the non-skip path. -/
def enqueue (sha256hex : List Nat → String) (fs : List (String × List Nat))
    (download_dir hash : String) (content_length : Nat) : EnqueueAction :=
  let output_file := output_file_path download_dir hash
  if (fs.lookup output_file).isSome && verify sha256hex fs hash output_file then
    .skip
  else
    .headAndPut { hash := hash, output_file := output_file, size := content_length, fail_count := 0 }

/-- Python `s.split(sep)[-1]` engine: scans `s` left to right; each
non-overlapping occurrence of `sep` closes the current piece.  `fuel`
bounds the recursion and is always at least `s.length + 1` at the top
call, which the scan can never exhaust since every step consumes at
least one character. -/
def pySplitFuel (sep : List Char) : Nat → List Char → List Char → List (List Char)
  | 0, acc, _ => [acc.reverse]
  | _ + 1, acc, [] => [acc.reverse]
  | fuel + 1, acc, c :: rest =>
      if sep.isPrefixOf (c :: rest) then
        acc.reverse :: pySplitFuel sep fuel [] (rest.drop (sep.length - 1))
      else
        pySplitFuel sep fuel (c :: acc) rest

/-- Python `s.split(sep)` for a non-empty separator. -/
def pySplit (sep s : List Char) : List (List Char) :=
  pySplitFuel sep (s.length + 1) [] s

/-- Python `s.split(sep)[-1]`: the last piece of the split (the split of a
non-empty separator always yields at least one piece). -/
def pySplitLast (sep s : String) : String :=
  String.mk ((pySplit sep.data s.data).getLastD s.data)

/-- Python `s.strip(c)` for a single strip character: removes every
leading and every trailing occurrence of `c`. -/
def pyStrip (c : Char) (s : String) : String :=
  String.mk (((s.data.dropWhile (· == c)).reverse.dropWhile (· == c)).reverse)

/-- `infer_filename` (`download_utils.py` lines 20–26):

    default = url.split("/")[-1]
    if content_disposition := headers.get("Content-Disposition"):
        filename = content_disposition.split("filename=")[-1]
        return filename.strip('"')
    return default

The headers mapping is embedded as the value it holds at the one key the
function reads (`none` when absent); the walrus-`if` takes the header
branch exactly when that value is present and non-empty (Python
truthiness of `str`). -/
def infer_filename (url : String) (content_disposition : Option String) : String :=
  let dflt := pySplitLast "/" url
  match content_disposition with
  | some cd => if cd = "" then dflt else pyStrip '"' (pySplitLast "filename=" cd)
  | none => dflt

/-- Length of the planner's loop range. -/
theorem intRange_length (n : Int) : (intRange n).length = n.toNat := by
  simp [intRange]

/-- Claim C1 (code bug evidence): at `contentLength = 1000`, `segments = 3`
the planner emits exactly three segments `[0,332]`, `[333,665]`, `[666,998]`;
no segment contains byte 999, so the segments do not cover
`[0, contentLength-1]` and the final segment does not absorb the remainder
of the integer division — `min((i+1)*segment_size - 1, content_length - 1)`
truncates the last segment instead of extending it. -/
theorem prepare_jobs_drops_tail_bug :
    ∃ l, prepare_jobs "u" "d" [] [] 1000 3 = .plan l
      ∧ l.length = 3
      ∧ ∀ j ∈ l, ¬(j.start ≤ 999 ∧ 999 ≤ j.endIdx) := by
  refine ⟨[⟨"u", "d", 0, 332, [], []⟩, ⟨"u", "d", 333, 665, [], []⟩,
    ⟨"u", "d", 666, 998, [], []⟩], by decide, by decide, by decide⟩

/-- Claim C2 (counterexample): at `contentLength = 1000`, `segments = 3`
the planner does not produce the ranges `[0,333],[334,666],[667,999]`
stated by the claim. -/
theorem prepare_jobs_1000_3_not_claimed_ranges :
    prepare_jobs "u" "d" [] [] 1000 3
      ≠ .plan [⟨"u", "d", 0, 333, [], []⟩, ⟨"u", "d", 334, 666, [], []⟩,
        ⟨"u", "d", 667, 999, [], []⟩] := by
  decide

/-- Claim C3 (counterexample): a worker that streams a 1-byte body for a
job whose `expectedSize` is 100 renames the temp file and fires the
success callback; neither the on-disk byte count nor the content hash is
checked anywhere on the success path, so the mismatch is reported as a
success, not as an integrity failure. -/
theorem worker_success_despite_size_mismatch :
    process_job 3 ⟨"ABC123", "downloads/ABC123.apk", 100, 0⟩ ⟨false, [7]⟩
      = .succeeded ⟨"ABC123", "downloads/ABC123.apk", 100, 0⟩ [7]
    ∧ ([7] : List Nat).length ≠ 100 := by
  decide

/-- Claim C3 (amended): whenever the HTTP response is not an error, the
batch worker unconditionally succeeds with exactly the streamed bytes —
no verification of the content identifier or of `expectedSize` happens
before the success callback. -/
theorem worker_no_verification_on_success (mr : Nat) (job : BatchJob) (resp : HttpResponse)
    (h : resp.is_error = false) :
    process_job mr job resp = .succeeded job resp.body := by
  simp [process_job, h]

/-- Witness for `worker_no_verification_on_success`. -/
theorem worker_no_verification_on_success_witness :
    process_job 3 ⟨"A", "A.apk", 5, 0⟩ ⟨false, [1, 2]⟩
      = .succeeded ⟨"A", "A.apk", 5, 0⟩ [1, 2] :=
  worker_no_verification_on_success 3 ⟨"A", "A.apk", 5, 0⟩ ⟨false, [1, 2]⟩ rfl

/-- Claim C5 (counterexample): requesting 41 connections is clamped to 40
in the batch pool, but the segmented single-file downloader plans 41
segments (and spawns one fetcher per segment) — its segment count is not
capped at 40. -/
theorem segmented_no_clamp_counterexample :
    effective_max_connections 41 = 40
    ∧ plan_job_count (prepare_jobs "u" "d" [] [] 1000 41) = some 41
    ∧ plan_job_count (prepare_jobs "u" "d" [] [] 1000 41) ≠ some 40 := by
  refine ⟨by decide, ?_, ?_⟩ <;> decide

/-- Claim C5 (amended): for every requested count above 40, the batch
worker pool clamps to 40 (without an error), while the segmented
downloader plans exactly one segment per requested connection, applying
no cap at all. -/
theorem clamp_batch_only (url dest : String) (uh ps : List (String × String))
    (n cl : Int) (h : 40 < n) :
    effective_max_connections n = 40
    ∧ plan_job_count (prepare_jobs url dest uh ps cl n) = some n.toNat := by
  constructor
  · unfold effective_max_connections MAX_THREADS
    rw [if_pos (by omega)]
  · have hn : ¬(n = 0) := by omega
    simp [prepare_jobs, hn, plan_job_count, intRange_length]

/-- Witness for `clamp_batch_only`. -/
theorem clamp_batch_only_witness :
    effective_max_connections 41 = 40
    ∧ plan_job_count (prepare_jobs "url" "dst" [] [] 1000 41) = some ((41 : Int).toNat) :=
  clamp_batch_only "url" "dst" [] [] 41 1000 (by decide)

/-- Claim C6 (code bug evidence): at `contentLength = 0` with the default
10 connections, the planner emits ten jobs — not one — each with
`start = 0`, `end = -1`; and because `end = -1` is truthy in Python, such
a job's request carries the malformed header `Range: bytes=0--1` instead
of no `Range` header at all (only a `0/0` job omits the header). -/
theorem zero_length_plan_behavior :
    prepare_jobs "u" "d" [] [] 0 10 = .plan (List.replicate 10 ⟨"u", "d", 0, -1, [], []⟩)
    ∧ (List.replicate 10 (DownloadJob.mk "u" "d" 0 (-1) [] [])).length ≠ 1
    ∧ (DownloadJob.mk "u" "d" 0 (-1) [] []).headers = [("Range", "bytes=0--1")]
    ∧ (DownloadJob.mk "u" "d" 0 0 [] []).headers = [] := by
  refine ⟨by decide, by decide, by decide, by decide⟩

/-- Claim C7 (counterexample): `segments = 0` makes the single-file
download die with `ZeroDivisionError` (not a configuration error), and
`segments = -1` is not rejected at all — the planner yields an empty job
list and the operation completes having downloaded nothing. -/
theorem nonpositive_segments_counterexample :
    prepare_jobs "u" "d" [] [] 1000 0 = .zeroDivisionError
    ∧ prepare_jobs "u" "d" [] [] 1000 (-1) = .plan [] := by
  decide

/-- Claim C7 (amended): no invalid-configuration check exists; for
`segments ≤ 0` the operation either raises `ZeroDivisionError` (when
`segments = 0`, from `content_length // connections`) or completes with
an empty plan (when `segments < 0`, since `range(connections)` is empty). -/
theorem nonpositive_segments_behavior (url dest : String) (uh ps : List (String × String))
    (cl n : Int) (h : n ≤ 0) :
    prepare_jobs url dest uh ps cl n
      = (if n = 0 then .zeroDivisionError else .plan []) := by
  by_cases hn : n = 0
  · simp [prepare_jobs, hn]
  · have h0 : n.toNat = 0 := Int.toNat_eq_zero.mpr h
    simp [prepare_jobs, hn, intRange, h0]

/-- Witness for `nonpositive_segments_behavior`. -/
theorem nonpositive_segments_behavior_witness :
    prepare_jobs "u" "d" [] [] 5 (-2)
      = (if (-2 : Int) = 0 then PlanResult.zeroDivisionError else PlanResult.plan []) :=
  nonpositive_segments_behavior "u" "d" [] [] 5 (-2) (by decide)

/-- Claim C8: when the output file for an identifier already exists and
its (uppercased) digest equals the identifier, `enqueue` returns before
the HEAD request — zero network requests, nothing put on the job queue. -/
theorem enqueue_skips_verified_file (sha256hex : List Nat → String)
    (fs : List (String × List Nat)) (dir h : String) (cl : Nat) (b : List Nat)
    (h1 : fs.lookup (output_file_path dir h) = some b)
    (h2 : h = pyUpper (sha256hex b)) :
    enqueue sha256hex fs dir h cl = .skip := by
  have h3 : verify sha256hex fs h (output_file_path dir h) = true := by
    unfold verify
    rw [h1]
    show (h == pyUpper (sha256hex b)) = true
    rw [← h2]
    simp
  simp [enqueue, h1, h3]

/-- Witness for `enqueue_skips_verified_file`. -/
theorem enqueue_skips_verified_file_witness :
    enqueue (fun _ => "aa") [("d/AA.apk", [3])] "d" "AA" 7 = .skip :=
  enqueue_skips_verified_file (fun _ => "aa") [("d/AA.apk", [3])] "d" "AA" 7 [3]
    (by decide) (by decide)

/-- Claim C9 (counterexample): for a `Content-Disposition` header with a
parameter after the quoted filename, the code's
`split("filename=")[-1].strip('"')` does not return the `filename="..."`
token — it returns the whole tail of the header. -/
theorem infer_filename_trailing_params_counterexample :
    infer_filename "http://host/pkg.bin" (some "attachment; filename=\"a.txt\"; foo=bar")
      = "a.txt\"; foo=bar"
    ∧ "a.txt\"; foo=bar" ≠ "a.txt" := by
  refine ⟨by decide, by decide⟩

/-- Retry trace of a job whose attempts all fail, started at an arbitrary
`fail_count` below the retry limit: one re-enqueue per failure until
`fail_count` reaches `max_retries`, then a single terminal failure. -/
theorem run_job_all_errors (mr : Nat) (hs out : String) (sz : Nat)
    (rs : List HttpResponse) : ∀ c, c < mr →
    (∀ r ∈ rs, r.is_error = true) → mr - c ≤ rs.length →
    run_job mr ⟨hs, out, sz, c⟩ rs =
      (List.range (mr - 1 - c)).map (fun k => JobOutcome.reenqueued ⟨hs, out, sz, c + k + 1⟩)
        ++ [JobOutcome.failed ⟨hs, out, sz, mr⟩] := by
  induction rs with
  | nil =>
    intro c hc _ hlen
    simp at hlen
    omega
  | cons r rs ih =>
    intro c hc herr hlen
    have hr : r.is_error = true := herr r (by simp)
    by_cases hterm : mr ≤ c + 1
    · have hmr : mr = c + 1 := by omega
      subst hmr
      have h0 : c + 1 - 1 - c = 0 := by omega
      simp [run_job, process_job, hr, h0]
    · have hstep : run_job mr ⟨hs, out, sz, c⟩ (r :: rs) =
          JobOutcome.reenqueued ⟨hs, out, sz, c + 1⟩ :: run_job mr ⟨hs, out, sz, c + 1⟩ rs := by
        simp [run_job, process_job, hr, hterm]
      rw [hstep, ih (c + 1) (by omega) (fun x hx => herr x (by simp [hx]))
        (by simp at hlen ⊢; omega)]
      have hn : mr - 1 - c = (mr - 1 - (c + 1)) + 1 := by omega
      have hfun : (List.range (mr - 1 - (c + 1))).map
            ((fun k => JobOutcome.reenqueued ⟨hs, out, sz, c + k + 1⟩) ∘ Nat.succ)
          = (List.range (mr - 1 - (c + 1))).map
            (fun k => JobOutcome.reenqueued ⟨hs, out, sz, c + 1 + k + 1⟩) := by
        apply List.map_congr_left
        intro a _
        have hadd : c + a.succ + 1 = c + 1 + a + 1 := by omega
        simp [Function.comp, hadd]
      rw [hn, List.range_succ_eq_map, List.map_cons, List.map_map, hfun]
      simp

/-- Claim C4: a job whose every attempt gets an HTTP error response has
`failureCount` incremented on each failed attempt and is re-enqueued
until `failureCount` reaches `maxRetries`: the trace is exactly
`maxRetries - 1` re-enqueues (with `fail_count` 1, 2, …) followed by one
terminal failure-callback outcome on the `maxRetries`-th failed attempt,
after which the job is never re-enqueued; and with `maxRetries = 3` a job
that fails once and then succeeds triggers the success callback with
`failureCount = 1`. -/
theorem batch_retry_exhaustion_and_success (mr : Nat) (hs out : String) (sz : Nat)
    (rs : List HttpResponse) (b : List Nat)
    (h1 : 1 ≤ mr) (herr : ∀ r ∈ rs, r.is_error = true) (hlen : mr ≤ rs.length) :
    run_job mr ⟨hs, out, sz, 0⟩ rs =
      (List.range (mr - 1)).map (fun k => JobOutcome.reenqueued ⟨hs, out, sz, k + 1⟩)
        ++ [JobOutcome.failed ⟨hs, out, sz, mr⟩]
    ∧ run_job 3 ⟨hs, out, sz, 0⟩ [⟨true, []⟩, ⟨false, b⟩] =
        [JobOutcome.reenqueued ⟨hs, out, sz, 1⟩, JobOutcome.succeeded ⟨hs, out, sz, 1⟩ b] := by
  constructor
  · have h := run_job_all_errors mr hs out sz rs 0 (by omega) herr (by omega)
    simpa using h
  · simp [run_job, process_job]

/-- Witness for `batch_retry_exhaustion_and_success`. -/
theorem batch_retry_exhaustion_and_success_witness :
    run_job 3 ⟨"h", "o", 5, 0⟩ [⟨true, []⟩, ⟨true, []⟩, ⟨true, []⟩] =
      (List.range 2).map (fun k => JobOutcome.reenqueued ⟨"h", "o", 5, k + 1⟩)
        ++ [JobOutcome.failed ⟨"h", "o", 5, 3⟩]
    ∧ run_job 3 ⟨"h", "o", 5, 0⟩ [⟨true, []⟩, ⟨false, [9]⟩] =
        [JobOutcome.reenqueued ⟨"h", "o", 5, 1⟩, JobOutcome.succeeded ⟨"h", "o", 5, 1⟩ [9]] :=
  batch_retry_exhaustion_and_success 3 "h" "o" 5 [⟨true, []⟩, ⟨true, []⟩, ⟨true, []⟩] [9]
    (by decide) (by decide) (by decide)

/-- A positional write that stays inside the current file contents splices
the data in place. -/
theorem writeAt_exact (file data : List Nat) (off : Nat)
    (h : off + data.length ≤ file.length) :
    writeAt file off data = file.take off ++ data ++ file.drop (off + data.length) := by
  unfold writeAt
  have h0 : off + data.length - file.length = 0 := by omega
  simp [h0]

/-- A positional write starting at or past the end of the file appends a
zero gap and then the data. -/
theorem writeAt_extend (file data : List Nat) (off : Nat) (h : file.length ≤ off) :
    writeAt file off data = file ++ List.replicate (off - file.length) 0 ++ data := by
  have expand : writeAt file off data
      = (file ++ List.replicate (off + data.length - file.length) 0).take off ++ data
        ++ (file ++ List.replicate (off + data.length - file.length) 0).drop
            (off + data.length) := rfl
  rw [expand]
  have hlen : (file ++ List.replicate (off + data.length - file.length) 0).length
      = off + data.length := by
    simp
    omega
  rw [List.drop_eq_nil_of_le (le_of_eq hlen), List.take_append_eq_append_take,
    List.take_of_length_le (by omega), List.take_replicate]
  have hmin : min (off - file.length) (off + data.length - file.length)
      = off - file.length := by omega
  rw [hmin]
  simp

/-- Claim C2 (amended): for `contentLength = 1000`, `segments = 3` the
planner produces the ranges `[0,332],[333,665],[666,998]` (not the
claimed `[0,333],[334,666],[667,999]`), and feeding any 1000 known bytes
through the three fetchers in reverse completion order yields a 999-byte
destination equal to the first 999 bytes of the original; the final byte
is never requested by any segment, so the destination file is not
byte-identical to the original content. -/
theorem reassembly_1000_3_truncated (content : List Nat) (h : content.length = 1000) :
    prepare_jobs "u" "d" [] [] 1000 3
      = .plan [⟨"u", "d", 0, 332, [], []⟩, ⟨"u", "d", 333, 665, [], []⟩,
        ⟨"u", "d", 666, 998, [], []⟩]
    ∧ run_jobs_rev content [⟨"u", "d", 0, 332, [], []⟩, ⟨"u", "d", 333, 665, [], []⟩,
        ⟨"u", "d", 666, 998, [], []⟩] = content.take 999
    ∧ content.take 999 ≠ content := by
  have hl1 : (content.take 333).length = 333 := by simp [h]
  have hl2 : ((content.drop 333).take 333).length = 333 := by simp [h]
  have hl3 : ((content.drop 666).take 333).length = 333 := by simp [h]
  have m1 : min (333 : Nat) 666 = 333 := by norm_num
  have m2 : (333 : Nat) - 666 = 0 := by norm_num
  have m3 : (666 : Nat) - 666 = 0 := by norm_num
  have m4 : (333 : Nat) - 333 = 0 := by norm_num
  refine ⟨by decide, ?_, ?_⟩
  · have hs1 : write_buffer ⟨"u", "d", 666, 998, [], []⟩ [(content.drop 666).take 333] []
        = List.replicate 666 0 ++ (content.drop 666).take 333 := by
      have e : write_buffer ⟨"u", "d", 666, 998, [], []⟩ [(content.drop 666).take 333] []
          = writeAt [] 666 ((content.drop 666).take 333) := rfl
      rw [e, writeAt_extend _ _ _ (by simp)]
      simp only [List.length_nil, Nat.sub_zero, List.nil_append]
    have hs2 : write_buffer ⟨"u", "d", 333, 665, [], []⟩ [(content.drop 333).take 333]
          (List.replicate 666 0 ++ (content.drop 666).take 333)
        = List.replicate 333 0 ++ (content.drop 333).take 333
            ++ (content.drop 666).take 333 := by
      have e : write_buffer ⟨"u", "d", 333, 665, [], []⟩ [(content.drop 333).take 333]
            (List.replicate 666 0 ++ (content.drop 666).take 333)
          = writeAt (List.replicate 666 0 ++ (content.drop 666).take 333) 333
              ((content.drop 333).take 333) := rfl
      have hdl : (333 : Nat) + 333 = 666 := by norm_num
      rw [e, writeAt_exact _ _ _
        (by rw [List.length_append, List.length_replicate, hl2, hl3]; omega)]
      rw [hl2, hdl]
      simp only [List.take_append_eq_append_take, List.take_replicate,
        List.length_replicate, List.drop_append_eq_append_drop, List.drop_replicate,
        m1, m2, m3, List.take_zero, List.drop_zero, List.replicate_zero,
        List.append_nil, List.nil_append, List.append_assoc]
    have hs3 : write_buffer ⟨"u", "d", 0, 332, [], []⟩ [content.take 333]
          (List.replicate 333 0 ++ (content.drop 333).take 333
            ++ (content.drop 666).take 333)
        = content.take 333 ++ (content.drop 333).take 333
            ++ (content.drop 666).take 333 := by
      have e : write_buffer ⟨"u", "d", 0, 332, [], []⟩ [content.take 333]
            (List.replicate 333 0 ++ (content.drop 333).take 333
              ++ (content.drop 666).take 333)
          = writeAt (List.replicate 333 0 ++ (content.drop 333).take 333
              ++ (content.drop 666).take 333) 0 (content.take 333) := rfl
      have hz : (0 : Nat) + 333 = 333 := by norm_num
      rw [e, writeAt_exact _ _ _
        (by rw [List.length_append, List.length_append, List.length_replicate,
          hl1, hl2, hl3]; omega)]
      rw [hl1, hz]
      simp only [List.take_zero, List.nil_append, List.drop_append_eq_append_drop,
        List.drop_replicate, List.length_replicate, List.length_append, hl2, m4,
        List.drop_zero, List.replicate_zero, List.append_nil,
        List.append_assoc]
    have hrun : run_jobs_rev content [⟨"u", "d", 0, 332, [], []⟩,
          ⟨"u", "d", 333, 665, [], []⟩, ⟨"u", "d", 666, 998, [], []⟩]
        = write_buffer ⟨"u", "d", 0, 332, [], []⟩
            [range_body content ⟨"u", "d", 0, 332, [], []⟩]
            (write_buffer ⟨"u", "d", 333, 665, [], []⟩
              [range_body content ⟨"u", "d", 333, 665, [], []⟩]
              (write_buffer ⟨"u", "d", 666, 998, [], []⟩
                [range_body content ⟨"u", "d", 666, 998, [], []⟩] [])) := rfl
    have hrb1 : range_body content ⟨"u", "d", 0, 332, [], []⟩ = content.take 333 := rfl
    have hrb2 : range_body content ⟨"u", "d", 333, 665, [], []⟩
        = (content.drop 333).take 333 := rfl
    have hrb3 : range_body content ⟨"u", "d", 666, 998, [], []⟩
        = (content.drop 666).take 333 := rfl
    rw [hrun, hrb1, hrb2, hrb3, hs1, hs2, hs3]
    have hdd : (content.drop 333).drop 333 = content.drop 666 := by
      rw [List.drop_drop]
    have hta : content.take 999 = content.take 333 ++ (content.drop 333).take 666 := by
      rw [← List.take_add]
    have htb : (content.drop 333).take 666
        = (content.drop 333).take 333 ++ ((content.drop 333).drop 333).take 333 := by
      rw [← List.take_add]
    rw [hta, htb, hdd, List.append_assoc]
  · intro heq
    have hlen2 := congrArg List.length heq
    simp [h] at hlen2

/-- Witness for `reassembly_1000_3_truncated`. -/
theorem reassembly_1000_3_truncated_witness :
    (List.replicate 1000 7).length = 1000
    ∧ (prepare_jobs "u" "d" [] [] 1000 3
        = .plan [⟨"u", "d", 0, 332, [], []⟩, ⟨"u", "d", 333, 665, [], []⟩,
          ⟨"u", "d", 666, 998, [], []⟩]
      ∧ run_jobs_rev (List.replicate 1000 7) [⟨"u", "d", 0, 332, [], []⟩,
          ⟨"u", "d", 333, 665, [], []⟩, ⟨"u", "d", 666, 998, [], []⟩]
        = (List.replicate 1000 7).take 999
      ∧ (List.replicate 1000 7).take 999 ≠ List.replicate 1000 7) :=
  ⟨by rw [List.length_replicate],
    reassembly_1000_3_truncated (List.replicate 1000 7) (by rw [List.length_replicate])⟩

/-- Python `upper` never outputs a lowercase ASCII letter. -/
theorem pyCharUpper_not_lower (a : Char) :
    ¬('a' ≤ pyCharUpper a ∧ pyCharUpper a ≤ 'z') := by
  unfold pyCharUpper
  by_cases hcase : 'a' ≤ a ∧ a ≤ 'z'
  · rw [if_pos hcase]
    obtain ⟨h1, h2⟩ := hcase
    rw [Char.le_def] at h1 h2
    have ha1 : 97 ≤ a.toNat := by exact_mod_cast h1
    have ha2 : a.toNat ≤ 122 := by exact_mod_cast h2
    obtain ⟨n, hn⟩ : ∃ n, a.toNat = n := ⟨_, rfl⟩
    rw [hn] at ha1 ha2 ⊢
    interval_cases n <;> decide
  · rw [if_neg hcase]
    exact hcase

/-- A string containing a lowercase ASCII letter is never the output of
`upper`. -/
theorem pyUpper_ne_of_lower {h : String} (c : Char) (hc : c ∈ h.data)
    (hlc : 'a' ≤ c ∧ c ≤ 'z') (s : String) : h ≠ pyUpper s := by
  intro he
  rw [he] at hc
  have hm : c ∈ s.data.map pyCharUpper := hc
  obtain ⟨a, _, rfl⟩ := List.mem_map.mp hm
  exact pyCharUpper_not_lower a hlc

/-- Claim C10: `_verify(h, f)` returns `True` exactly when `f` exists and
`h` equals the uppercased hex digest of its contents; consequently an
identifier containing any lowercase letter (in particular a digest
supplied in lowercase hex) never verifies, and `enqueue` proceeds to the
HEAD request and queues a fresh download for it even when the file's
content matches the identifier up to case. -/
theorem verify_requires_uppercase_hash (sha256hex : List Nat → String)
    (fs : List (String × List Nat)) (dir h : String) (cl : Nat) :
    (∀ f, verify sha256hex fs h f = true
        ↔ ∃ b, fs.lookup f = some b ∧ h = pyUpper (sha256hex b))
    ∧ ((∃ c ∈ h.data, 'a' ≤ c ∧ c ≤ 'z') →
        (∀ f, verify sha256hex fs h f = false)
        ∧ enqueue sha256hex fs dir h cl
          = .headAndPut ⟨h, output_file_path dir h, cl, 0⟩) := by
  constructor
  · intro f
    unfold verify
    cases hf : fs.lookup f with
    | none => simp
    | some b => simp [beq_iff_eq]
  · rintro ⟨c, hc, hlc⟩
    have hfalse : ∀ f, verify sha256hex fs h f = false := by
      intro f
      unfold verify
      cases hf : fs.lookup f with
      | none => rfl
      | some b =>
        simp only [beq_eq_false_iff_ne, ne_eq]
        exact pyUpper_ne_of_lower c hc hlc (sha256hex b)
    refine ⟨hfalse, ?_⟩
    simp [enqueue, hfalse (output_file_path dir h), Bool.and_false]

/-- Witness for `verify_requires_uppercase_hash`: the identifier "ab" is
the lowercase form of the file's digest (here the digest function returns
"ab", whose uppercase is "AB"), yet enqueue re-downloads. -/
theorem verify_requires_uppercase_hash_witness :
    (∃ c ∈ "ab".data, 'a' ≤ c ∧ c ≤ 'z')
    ∧ enqueue (fun _ => "ab") [("d/ab.apk", [3])] "d" "ab" 7
      = .headAndPut ⟨"ab", "d/ab.apk", 7, 0⟩ :=
  ⟨⟨'a', by decide, by decide⟩,
    ((verify_requires_uppercase_hash (fun _ => "ab") [("d/ab.apk", [3])] "d" "ab" 7).2
      ⟨'a', by decide, by decide⟩).2⟩

/-- A boolean prefix test certifies a decomposition. -/
theorem isPrefixOf_exists {l1 l2 : List Char} (h : l1.isPrefixOf l2 = true) :
    ∃ t, l2 = l1 ++ t := by
  induction l1 generalizing l2 with
  | nil => exact ⟨l2, rfl⟩
  | cons a as ih =>
    cases l2 with
    | nil => simp [List.isPrefixOf] at h
    | cons b bs =>
      simp only [List.isPrefixOf, Bool.and_eq_true, beq_iff_eq] at h
      obtain ⟨rfl, h2⟩ := h
      obtain ⟨t, rfl⟩ := ih h2
      exact ⟨t, rfl⟩

/-- A list is a prefix of itself followed by anything. -/
theorem isPrefixOf_append (l t : List Char) : l.isPrefixOf (l ++ t) = true := by
  induction l with
  | nil => simp [List.isPrefixOf]
  | cons a as ih => simp [List.isPrefixOf, ih]

/-- When the last character of `sep` occurs nowhere in `sep.dropLast` nor
in the non-empty `pre`, the scan cannot match `sep` while `pre` is still
being consumed. -/
theorem not_prefixOf_mid (sep : List Char) (x : Char)
    (hlast : sep.getLast? = some x) (hdrop : x ∉ sep.dropLast)
    (pre : List Char) (hpre : pre ≠ []) (hxpre : x ∉ pre) (suf : List Char) :
    sep.isPrefixOf (pre ++ (sep ++ suf)) = false := by
  have hsep_ne : sep ≠ [] := by
    intro h0
    rw [h0] at hlast
    simp at hlast
  have hn : 1 ≤ sep.length := List.length_pos.mpr hsep_ne
  have hk : 1 ≤ pre.length := List.length_pos.mpr hpre
  by_contra hcon
  rw [Bool.not_eq_false] at hcon
  obtain ⟨t, ht⟩ := isPrefixOf_exists hcon
  have hL : (pre ++ (sep ++ suf))[sep.length - 1]? = some x := by
    rw [ht, List.getElem?_append_left (by omega : sep.length - 1 < sep.length),
      ← List.getLast?_eq_getElem?]
    exact hlast
  by_cases hcase : sep.length - 1 < pre.length
  · rw [List.getElem?_append_left hcase] at hL
    exact hxpre (List.getElem?_mem hL)
  · have hge : pre.length ≤ sep.length - 1 := by omega
    rw [List.getElem?_append_right hge,
      List.getElem?_append_left (by omega : sep.length - 1 - pre.length < sep.length)] at hL
    have hj : sep.length - 1 - pre.length < sep.length - 1 := by omega
    have htake : (sep.take (sep.length - 1))[sep.length - 1 - pre.length]? = some x := by
      rw [List.getElem?_take_of_lt hj]
      exact hL
    rw [← List.dropLast_eq_take] at htake
    exact hdrop (List.getElem?_mem htake)

/-- A piece of the input containing no occurrence of (a witness character
of) the separator is emitted whole as the final piece. -/
theorem pySplitFuel_no_sep (sep : List Char) (x : Char) (hx : x ∈ sep) :
    ∀ (s : List Char), x ∉ s → ∀ (acc : List Char) (fuel : Nat), s.length < fuel →
      pySplitFuel sep fuel acc s = [acc.reverse ++ s] := by
  intro s
  induction s with
  | nil =>
    intro _ acc fuel hf
    cases fuel with
    | zero => exact absurd hf (Nat.not_lt_zero _)
    | succ f => simp [pySplitFuel]
  | cons c cs ih =>
    intro hxs acc fuel hf
    cases fuel with
    | zero => exact absurd hf (Nat.not_lt_zero _)
    | succ f =>
      have hnp : sep.isPrefixOf (c :: cs) = false := by
        by_contra hcon
        rw [Bool.not_eq_false] at hcon
        obtain ⟨t, ht⟩ := isPrefixOf_exists hcon
        exact hxs (ht ▸ List.mem_append_left t hx)
      have hf2 : cs.length < f := by
        simp only [List.length_cons] at hf
        omega
      simp only [pySplitFuel, hnp, Bool.false_eq_true, if_false]
      rw [ih (fun hm => hxs (List.mem_cons_of_mem c hm)) (c :: acc) f hf2]
      simp

/-- Scanning `pre ++ sep ++ suf` where the distinguishing last character
of `sep` does not occur in `pre` closes the piece `pre` at the separator
and continues on `suf`. -/
theorem pySplitFuel_through (sep : List Char) (x : Char)
    (hlast : sep.getLast? = some x) (hdrop : x ∉ sep.dropLast) (suf : List Char) :
    ∀ (pre : List Char), x ∉ pre → ∀ (acc : List Char) (fuel : Nat),
      (pre ++ (sep ++ suf)).length < fuel →
      ∃ f2, suf.length < f2 ∧
        pySplitFuel sep fuel acc (pre ++ (sep ++ suf))
          = (acc.reverse ++ pre) :: pySplitFuel sep f2 [] suf := by
  have hsep_ne : sep ≠ [] := by
    intro h0
    rw [h0] at hlast
    simp at hlast
  intro pre
  induction pre with
  | nil =>
    intro _ acc fuel hf
    cases fuel with
    | zero => exact absurd hf (Nat.not_lt_zero _)
    | succ f =>
      have h1 : 1 ≤ sep.length := List.length_pos.mpr hsep_ne
      refine ⟨f, ?_, ?_⟩
      · simp only [List.nil_append, List.length_append] at hf
        omega
      · obtain ⟨c, cs, rfl⟩ : ∃ c cs, sep = c :: cs := by
          cases sep with
          | nil => exact absurd rfl hsep_ne
          | cons a b => exact ⟨a, b, rfl⟩
        have hpref : (c :: cs).isPrefixOf (c :: (cs ++ suf)) = true := by
          have hh := isPrefixOf_append (c :: cs) suf
          simp only [List.cons_append] at hh
          exact hh
        simp only [List.nil_append, List.cons_append, pySplitFuel, List.append_eq,
          hpref, if_true]
        rw [show (c :: cs).length - 1 = cs.length by simp]
        rw [List.drop_left]
        simp
  | cons q qs ih =>
    intro hxp acc fuel hf
    cases fuel with
    | zero => exact absurd hf (Nat.not_lt_zero _)
    | succ f =>
      have hnp : sep.isPrefixOf ((q :: qs) ++ (sep ++ suf)) = false :=
        not_prefixOf_mid sep x hlast hdrop (q :: qs) (by simp) hxp suf
      rw [List.cons_append] at hnp
      have hf3 : (qs ++ (sep ++ suf)).length < f := by
        simp only [List.cons_append, List.length_cons] at hf
        omega
      obtain ⟨f2, hf2, heq⟩ :=
        ih (fun hm => hxp (List.mem_cons_of_mem q hm)) (q :: acc) f hf3
      refine ⟨f2, hf2, ?_⟩
      rw [List.cons_append]
      simp only [pySplitFuel, List.append_eq, hnp, Bool.false_eq_true, if_false]
      rw [heq]
      simp

/-- For a single-character separator, the last piece of the split is the
separator-free suffix after the last occurrence. -/
theorem pySplitFuel_last_single (x : Char) (suf : List Char) (hs : x ∉ suf) :
    ∀ (pre : List Char) (acc : List Char) (fuel : Nat) (df : List Char),
      (pre ++ ([x] ++ suf)).length < fuel →
      (pySplitFuel [x] fuel acc (pre ++ ([x] ++ suf))).getLastD df = suf := by
  intro pre
  induction pre with
  | nil =>
    intro acc fuel df hf
    cases fuel with
    | zero => exact absurd hf (Nat.not_lt_zero _)
    | succ f =>
      have hpref : [x].isPrefixOf (x :: suf) = true := by
        have hh := isPrefixOf_append [x] suf
        simp only [List.singleton_append] at hh
        exact hh
      simp only [List.nil_append, List.singleton_append, pySplitFuel, List.append_eq,
        hpref, if_true]
      have hf2 : suf.length < f := by
        simp at hf
        omega
      rw [show ([x] : List Char).length - 1 = 0 by simp, List.drop_zero,
        pySplitFuel_no_sep [x] x (by simp) suf hs [] f hf2]
      simp [List.getLastD_cons]
  | cons q qs ih =>
    intro acc fuel df hf
    cases fuel with
    | zero => exact absurd hf (Nat.not_lt_zero _)
    | succ f =>
      rw [List.cons_append]
      have hf3 : (qs ++ ([x] ++ suf)).length < f := by
        simp at hf ⊢
        omega
      by_cases hpx : [x].isPrefixOf (q :: (qs ++ ([x] ++ suf))) = true
      · simp only [pySplitFuel, List.append_eq, hpx, if_true]
        rw [show ([x] : List Char).length - 1 = 0 by simp, List.drop_zero,
          List.getLastD_cons]
        exact ih [] f acc.reverse hf3
      · rw [Bool.not_eq_true] at hpx
        simp only [pySplitFuel, List.append_eq, hpx, Bool.false_eq_true, if_false]
        exact ih (q :: acc) f df hf3

/-- `dropWhile (== x)` is the identity on lists not containing `x`. -/
theorem dropWhile_beq_of_not_mem (x : Char) (l : List Char) (h : x ∉ l) :
    l.dropWhile (fun c => c == x) = l := by
  cases l with
  | nil => rfl
  | cons y ys =>
    have hyx : (y == x) = false := by
      rw [beq_eq_false_iff_ne]
      intro he
      apply h
      rw [← he]
      exact List.mem_cons_self y ys
    rw [List.dropWhile_cons, hyx]
    simp

/-- Python `strip` with the double-quote character unwraps one layer of
quotes around a quote-free core. -/
theorem strip_quotes_list (name : List Char) (hq : '"' ∉ name) :
    ((('"' :: (name ++ ['"'])).dropWhile (fun c => c == '"')).reverse.dropWhile
      (fun c => c == '"')).reverse = name := by
  rw [List.dropWhile_cons]
  rw [if_pos (by simp)]
  cases name with
  | nil => rfl
  | cons a as =>
    have ha : (a == '"') = false := by
      rw [beq_eq_false_iff_ne]
      intro he
      apply hq
      rw [← he]
      exact List.mem_cons_self a as
    rw [List.cons_append, List.dropWhile_cons]
    simp only [ha, Bool.false_eq_true, if_false]
    rw [← List.cons_append, List.reverse_append]
    rw [show (['"'] : List Char).reverse = ['"'] from rfl, List.singleton_append]
    rw [List.dropWhile_cons, if_pos (by simp)]
    rw [dropWhile_beq_of_not_mem '"' (a :: as).reverse
      (fun hm => hq (List.mem_reverse.mp hm))]
    exact List.reverse_reverse _

/-- Claim C9 (amended): with no `Content-Disposition` header the inferred
filename is the URL's last path segment; with a header of the shape
`<prefix>filename="<name>"` (the quoted token ending the header, `=`-free
prefix, quote- and `=`-free name) the quoted name is returned.  For
headers with material after the quoted token the code returns the whole
tail of the header instead (see the counterexample), and an empty header
value falls back to the URL segment. -/
theorem infer_filename_characterization
    (url p seg pre name : String)
    (hu : url = p ++ "/" ++ seg) (hseg : '/' ∉ seg.data)
    (hpre : '=' ∉ pre.data) (hn1 : '=' ∉ name.data) (hn2 : '"' ∉ name.data) :
    infer_filename url none = seg
    ∧ infer_filename url (some (pre ++ "filename=\"" ++ name ++ "\"")) = name := by
  have hud : url.data = p.data ++ (['/'] ++ seg.data) := by
    rw [hu]
    rw [String.data_append, String.data_append]
    rw [show ("/" : String).data = ['/'] from rfl, List.append_assoc]
  have hurl_last : (pySplit ['/'] url.data).getLastD url.data = seg.data := by
    unfold pySplit
    rw [hud]
    exact pySplitFuel_last_single '/' seg.data hseg p.data [] _ _ (Nat.lt_succ_self _)
  constructor
  · show String.mk ((pySplit ['/'] url.data).getLastD url.data) = seg
    rw [hurl_last]
  · have hcd_data : (pre ++ "filename=\"" ++ name ++ "\"").data
        = pre.data ++ ("filename=".data ++ ('"' :: (name.data ++ ['"']))) := by
      rw [String.data_append, String.data_append, String.data_append]
      rw [show ("filename=\"" : String).data = "filename=".data ++ ['"'] from rfl,
        show ("\"" : String).data = ['"'] from rfl]
      simp [List.append_assoc]
    have hcd_ne : ¬(pre ++ "filename=\"" ++ name ++ "\"" = "") := by
      intro h0
      have hd : (pre ++ "filename=\"" ++ name ++ "\"").data = [] := by
        rw [h0]
      rw [hcd_data] at hd
      simp at hd
    have hsuf_ne : '=' ∉ ('"' :: (name.data ++ ['"'])) := by
      intro hm
      rcases List.mem_cons.mp hm with h1 | h1
      · exact absurd h1 (by decide)
      · rcases List.mem_append.mp h1 with h2 | h2
        · exact hn1 h2
        · simp only [List.mem_singleton] at h2
          exact absurd h2 (by decide)
    have hsl : (pySplit "filename=".data (pre ++ "filename=\"" ++ name ++ "\"").data).getLastD
          (pre ++ "filename=\"" ++ name ++ "\"").data = '"' :: (name.data ++ ['"']) := by
      unfold pySplit
      rw [hcd_data]
      obtain ⟨f2, hf2, heq⟩ := pySplitFuel_through "filename=".data '='
        (by decide) (by decide) ('"' :: (name.data ++ ['"'])) pre.data hpre []
        ((pre.data ++ ("filename=".data ++ ('"' :: (name.data ++ ['"'])))).length + 1)
        (Nat.lt_succ_self _)
      rw [heq, pySplitFuel_no_sep "filename=".data '=' (by decide)
        ('"' :: (name.data ++ ['"'])) hsuf_ne [] f2 hf2]
      simp [List.getLastD_cons]
    show (if pre ++ "filename=\"" ++ name ++ "\"" = "" then
        pySplitLast "/" url
      else pyStrip '"' (pySplitLast "filename=" (pre ++ "filename=\"" ++ name ++ "\""))) = name
    rw [if_neg hcd_ne]
    have hps : pySplitLast "filename=" (pre ++ "filename=\"" ++ name ++ "\"")
        = String.mk ('"' :: (name.data ++ ['"'])) := by
      show String.mk ((pySplit "filename=".data
          (pre ++ "filename=\"" ++ name ++ "\"").data).getLastD
          (pre ++ "filename=\"" ++ name ++ "\"").data) = _
      rw [hsl]
    rw [hps]
    show String.mk (((('"' :: (name.data ++ ['"'])).dropWhile
        (fun c => c == '"')).reverse.dropWhile (fun c => c == '"')).reverse) = name
    rw [strip_quotes_list name.data hn2]

/-- Witness for `infer_filename_characterization`. -/
theorem infer_filename_characterization_witness :
    infer_filename "http://host/pkg.bin" none = "pkg.bin"
    ∧ infer_filename "http://host/pkg.bin"
        (some ("attachment; " ++ "filename=\"" ++ "a.txt" ++ "\"")) = "a.txt" :=
  infer_filename_characterization "http://host/pkg.bin" "http://host" "pkg.bin"
    "attachment; " "a.txt" (by decide) (by decide) (by decide) (by decide) (by decide)
